import Mathlib

/-!
# Manual line spacing with PangoCairo: the render loop and the stdin reader

A shallow embedding of `pangocairo_line_skip_sample_ja.c`.

* A C `int` has 32 bits. The result of every `int` operation of the line loop
  is reduced to the 32 bit two's complement range (`wrap_int`), as the compiled
  code does. C leaves signed overflow undefined, so the theorems on the loop's
  arithmetic are stated for the walks in which the exact value of every such
  operation lies in the range of `int` (`render_in_range`).
* Pango and Cairo are external: what the layout iterator reports for each line
  (baseline, byte index, logical x) is an input of the model, and a draw call
  (`cairo_move_to` followed by `pango_cairo_show_layout_line`) is recorded in
  a trace.
* `PANGO_SCALE` is a macro of Pango's headers (1024 there); the definitions
  take it as a parameter.
-/

namespace PangoLineSkip

/-- Smallest value of a 32 bit `int`. -/
def INT_MIN : Int := -2147483648

/-- Largest value of a 32 bit `int`. -/
def INT_MAX : Int := 2147483647

/-- The `int` that holds the result `x` of an `int` operation: `x` reduced
modulo `2^32` to the range from `INT_MIN` to `INT_MAX`. -/
def wrap_int (x : Int) : Int :=
  (x + 2147483648) % 4294967296 - 2147483648

/-- Whether `x` lies in the range of `int`. -/
def in_int_range (x : Int) : Bool :=
  decide (INT_MIN ≤ x) && decide (x ≤ INT_MAX)

/-- Forced line height in pixels (`const int LINE_HEIGHT = 20`). -/
def LINE_HEIGHT : Int := 20

/-- Extra height forced at a paragraph break (`const int PARAGRAPH_HEIGHT = 4`). -/
def PARAGRAPH_HEIGHT : Int := 4

/-- Pango units to pixels, rounding up: `ceil((double)(pango_size) / PANGO_SCALE)`.
For a 32 bit `pango_size` the conversion to `double` and the quotient's ceiling
are exact, so the result is the integer ceiling of the quotient, written here
with the floor division of `Int`. -/
def conv_pango_to_pixel (PANGO_SCALE : Int) (pango_size : Int) : Int :=
  -((-pango_size) / PANGO_SCALE)

/-- The byte `layout_text[i]` of a NUL terminated string whose bytes before the
terminator are `layout_text`: index `layout_text.length` holds the terminator.
(The indices Pango reports are byte offsets from 0 to `layout_text.length`.) -/
def byteAt (layout_text : List Nat) (i : Nat) : Nat :=
  layout_text.getD i 0

/-- What the layout iterator reports while it stands on one line:
`pango_layout_iter_get_baseline`, `pango_layout_iter_get_index` and the `x` of
the logical rectangle of `pango_layout_iter_get_line_extents`. -/
structure IterLine where
  baseline : Int
  index : Nat
  logical_x : Int
  deriving DecidableEq, Repr

/-- One draw call: `cairo_move_to(cr, x, y)` followed by
`pango_cairo_show_layout_line(cr, line)` for the iterator's current line. -/
structure DrawCall where
  x : Int
  y : Int
  line : IterLine
  deriving DecidableEq, Repr

/-- The local variables of `render` that the line loop reads and writes,
together with the trace of draw calls issued so far. -/
structure LoopVars where
  y0 : Int
  baseline_y : Int
  sum_extra_y : Int
  draws : List DrawCall
  deriving DecidableEq, Repr

/-- Test `layout_text[index] == 0` of the loop: the line is empty. -/
def line_is_empty (layout_text : List Nat) (l : IterLine) : Bool :=
  byteAt layout_text l.index == 0

/-- Test `index > 0 && layout_text[index - 1] == 10` (a newline precedes). -/
def paragraph_break (layout_text : List Nat) (l : IterLine) : Bool :=
  decide (l.index > 0) && (byteAt layout_text (l.index - 1) == 10)

/-- The value of `diff_y` for a line, given the previous baseline `y0`:
`conv_pango_to_pixel(y1 - y0)`, the subtraction being an `int` operation. -/
def diff_y (PANGO_SCALE : Int) (y0 : Int) (l : IterLine) : Int :=
  conv_pango_to_pixel PANGO_SCALE (wrap_int (l.baseline - y0))

/-- The value of `add` when the baseline is advanced: `diff_y` or `LINE_HEIGHT`,
whichever is larger, then `add += PARAGRAPH_HEIGHT` after a newline. -/
def forced_add (PANGO_SCALE : Int) (layout_text : List Nat) (y0 : Int) (l : IterLine) : Int :=
  let d := diff_y PANGO_SCALE y0 l
  let add := if d > LINE_HEIGHT then d else LINE_HEIGHT
  if paragraph_break layout_text l then wrap_int (add + PARAGRAPH_HEIGHT) else add

/-- The part of `render` before the loop: the first line is drawn at its own
baseline, whatever the text is. -/
def render_first (PANGO_SCALE : Int) (first : IterLine) : LoopVars :=
  let y0 := first.baseline
  let baseline_y := conv_pango_to_pixel PANGO_SCALE y0
  { y0 := y0
    baseline_y := baseline_y
    sum_extra_y := 0
    draws := [⟨conv_pango_to_pixel PANGO_SCALE first.logical_x, baseline_y, first⟩] }


/-- One pass through the body of the `while` loop, the iterator standing on `l`.
The boolean is `true` when the body left the loop through `break`. -/
def render_body (PANGO_SCALE : Int) (layout_text : List Nat) (s : LoopVars) (l : IterLine) :
    LoopVars × Bool :=
  if line_is_empty layout_text l then
    ({ s with sum_extra_y := wrap_int (s.sum_extra_y - diff_y PANGO_SCALE s.y0 l) }, true)
  else
    let add := forced_add PANGO_SCALE layout_text s.y0 l
    let baseline_y := wrap_int (s.baseline_y + add)
    ({ y0 := l.baseline
       baseline_y := baseline_y
       sum_extra_y := wrap_int (s.sum_extra_y + wrap_int (add - diff_y PANGO_SCALE s.y0 l))
       draws := s.draws ++ [⟨conv_pango_to_pixel PANGO_SCALE l.logical_x, baseline_y, l⟩] }, false)

/-- The `while (pango_layout_iter_next_line(it))` loop over the lines the
iterator still has. -/
def render_loop (PANGO_SCALE : Int) (layout_text : List Nat) :
    LoopVars → List IterLine → LoopVars
  | s, [] => s
  | s, l :: ls =>
    match render_body PANGO_SCALE layout_text s l with
    | (s', true) => s'
    | (s', false) => render_loop PANGO_SCALE layout_text s' ls

/-- The manual line spacing part of `render`: first line, then the loop. -/
def render_lines (PANGO_SCALE : Int) (layout_text : List Nat) (first : IterLine)
    (rest : List IterLine) : LoopVars :=
  render_loop PANGO_SCALE layout_text (render_first PANGO_SCALE first) rest

/-- The status a Cairo call reports (`cairo_status_t`): success or a failure
with its nonzero code, such as 11 for `CAIRO_STATUS_WRITE_ERROR`. -/
inductive CairoStatus where
  | success
  | failure (code : Nat)
  deriving DecidableEq, Repr

/-- What `render` hands back: its `int` return value, and the loop variables
when the loop has ended. -/
structure RenderResult where
  ret : Int
  vars : LoopVars
  deriving DecidableEq, Repr

/-- The function `render`. `draw_status` is the status of the Cairo context
when the drawing has been done and `png_status` the value returned by
`cairo_surface_write_to_png`; the code reads neither, and its only `return`
statement is `return 1`. -/
def render (PANGO_SCALE : Int) (layout_text : List Nat) (first : IterLine)
    (rest : List IterLine) (draw_status png_status : CairoStatus) : RenderResult :=
  let vars := render_lines PANGO_SCALE layout_text first rest
  let _ := draw_status
  let _ := png_status
  { ret := 1, vars := vars }

/-- The exit status of `main`. -/
inductive ExitStatus where
  | EXIT_SUCCESS
  | EXIT_FAILURE
  deriving DecidableEq, Repr

/-- The end of `main`: `if (!setup(&info)) return EXIT_FAILURE;`
`if (!render(buf, output_filename, &info)) return EXIT_FAILURE;`, then
`return EXIT_SUCCESS`. -/
def main_exit (setup_ret render_ret : Int) : ExitStatus :=
  if setup_ret = 0 then ExitStatus.EXIT_FAILURE
  else if render_ret = 0 then ExitStatus.EXIT_FAILURE
  else ExitStatus.EXIT_SUCCESS

/-- Largest number of input bytes (`const size_t MAX_CHARS = 4000`). -/
def MAX_CHARS : Nat := 4000

/-- The assignment `buf[i] = c` on a buffer of `buf.length` bytes: `none` when
the index is outside the buffer. -/
def store (buf : List Nat) (i : Nat) (c : Nat) : Option (List Nat) :=
  if i < buf.length then some (buf.set i c) else none

/-- The loop `for ( ; i < MAX_CHARS && !ferror(stdin); i++)` of `main`.
`pending` holds the bytes `fgetc(stdin)` delivers before it returns `EOF`
(at the end of the input or at a read error), `error` is the stream's error
indicator, which a successful `fgetc` leaves as it is. The result is the final
`i` and buffer, or `none` when a write fell outside the buffer. -/
def read_loop : List Nat → Bool → Nat → List Nat → Option (Nat × List Nat)
  | pending, error, i, buf =>
    if i < MAX_CHARS ∧ error = false then
      match pending with
      | [] => some (i, buf)
      | c :: more =>
        match store buf i c with
        | none => none
        | some buf' => read_loop more error (i + 1) buf'
    else some (i, buf)

/-- The input part of `main`: the read loop from `i = 0` on a stream whose
error indicator is clear, then `buf[i] = 0`. `buf` is the block `malloc`
returned, with whatever bytes it holds. -/
def main_read (stdin : List Nat) (buf : List Nat) : Option (List Nat) :=
  match read_loop stdin false 0 buf with
  | none => none
  | some (i, buf') => store buf' i 0


/-- The natural delta of a line in pixels: the exact value of the expression
`conv_pango_to_pixel(y1 - y0)`. -/
def natural_delta (PANGO_SCALE : Int) (y0 : Int) (l : IterLine) : Int :=
  conv_pango_to_pixel PANGO_SCALE (l.baseline - y0)

/-- The exact value of `add` when the baseline is advanced. -/
def exact_add (PANGO_SCALE : Int) (layout_text : List Nat) (y0 : Int) (l : IterLine) : Int :=
  max (natural_delta PANGO_SCALE y0 l) LINE_HEIGHT +
    (if paragraph_break layout_text l then PARAGRAPH_HEIGHT else 0)

/-- No `int` operation of one pass through the loop body overflows: the exact
values of `y1 - y0`, and then of `sum_extra_y - diff_y` for an empty line, or
of `add`, `baseline_y + add`, `add - diff_y` and `sum_extra_y + (add - diff_y)`
for a line that is drawn, lie in the range of `int`. -/
def body_in_range (PANGO_SCALE : Int) (layout_text : List Nat) (s : LoopVars)
    (l : IterLine) : Bool :=
  in_int_range (l.baseline - s.y0) &&
    (if line_is_empty layout_text l then
      in_int_range (s.sum_extra_y - natural_delta PANGO_SCALE s.y0 l)
    else
      in_int_range (exact_add PANGO_SCALE layout_text s.y0 l) &&
      in_int_range (s.baseline_y + exact_add PANGO_SCALE layout_text s.y0 l) &&
      in_int_range (exact_add PANGO_SCALE layout_text s.y0 l - natural_delta PANGO_SCALE s.y0 l) &&
      in_int_range (s.sum_extra_y +
        (exact_add PANGO_SCALE layout_text s.y0 l - natural_delta PANGO_SCALE s.y0 l)))

/-- No `int` operation overflows in any pass the loop makes over `ls`. -/
def loop_in_range (PANGO_SCALE : Int) (layout_text : List Nat) :
    LoopVars → List IterLine → Bool
  | _, [] => true
  | s, l :: ls =>
    body_in_range PANGO_SCALE layout_text s l &&
      (line_is_empty layout_text l ||
        loop_in_range PANGO_SCALE layout_text (render_body PANGO_SCALE layout_text s l).1 ls)

/-- No `int` operation overflows in the walk `render_lines` makes. -/
def render_in_range (PANGO_SCALE : Int) (layout_text : List Nat) (first : IterLine)
    (rest : List IterLine) : Bool :=
  loop_in_range PANGO_SCALE layout_text (render_first PANGO_SCALE first) rest

/-- The sum of the natural deltas, each converted to pixels on its own, of the
lines `ls` walked from the previous baseline `y0`. -/
def sum_diff_y (PANGO_SCALE : Int) : Int → List IterLine → Int
  | _, [] => 0
  | y0, l :: ls => natural_delta PANGO_SCALE y0 l + sum_diff_y PANGO_SCALE l.baseline ls

/-- The last draw call of the trace was issued at `baseline_y` for the line
whose baseline is `y0`. -/
def LastDrawn (s : LoopVars) : Prop :=
  ∃ d, s.draws.getLast? = some d ∧ d.y = s.baseline_y ∧ d.line.baseline = s.y0

/-- How a draw call relates to the draw call before it. -/
def StepRel (PANGO_SCALE : Int) (layout_text : List Nat) (prev cur : DrawCall) : Prop :=
  cur.y = prev.y + exact_add PANGO_SCALE layout_text prev.line.baseline cur.line ∧
  line_is_empty layout_text cur.line = false ∧
  cur.x = conv_pango_to_pixel PANGO_SCALE cur.line.logical_x

/-! ## Lemmas on the loop -/

section LoopLemmas

variable (S : Int) (text : List Nat)

/-- The integer formula of `conv_pango_to_pixel` is the ceiling of the exact
quotient, for a positive `PANGO_SCALE`. -/
theorem conv_pango_to_pixel_eq_ceil (p : Int) (hS : 0 < S) :
    conv_pango_to_pixel S p = ⌈(p : ℚ) / (S : ℚ)⌉ := by
  unfold conv_pango_to_pixel
  obtain ⟨n, rfl⟩ := Int.eq_ofNat_of_zero_le hS.le
  have h := Rat.floor_intCast_div_natCast (-p) n
  have hc : ⌈(p : ℚ) / ((n : ℤ) : ℚ)⌉ = -⌊-((p : ℚ) / ((n : ℤ) : ℚ))⌋ := by
    rw [Int.floor_neg, neg_neg]
  rw [hc, ← neg_div]
  simp only [Int.cast_neg, Int.cast_natCast] at h ⊢
  rw [h]

/-- Outside the range of `int` the loop wraps: from a baseline of `-2^30` to one
of `2^31 - 1` the subtraction `y1 - y0` wraps to a negative value, the baseline
advances by 20 and `sum_extra_y` ends at 1048596. -/
theorem render_lines_wraps :
    (render_lines 1024 [97, 98] ⟨-1073741824, 0, 0⟩ [⟨2147483647, 1, 0⟩]).baseline_y
        = -1048556 ∧
      (render_lines 1024 [97, 98] ⟨-1073741824, 0, 0⟩ [⟨2147483647, 1, 0⟩]).sum_extra_y
        = 1048596 ∧
      render_in_range 1024 [97, 98] ⟨-1073741824, 0, 0⟩ [⟨2147483647, 1, 0⟩] = false := by
  decide

theorem in_int_range_iff (x : Int) :
    in_int_range x = true ↔ -2147483648 ≤ x ∧ x ≤ 2147483647 := by
  simp [in_int_range, INT_MIN, INT_MAX]

theorem wrap_int_of_in_range (x : Int) (h : in_int_range x = true) : wrap_int x = x := by
  rw [in_int_range_iff] at h
  unfold wrap_int
  omega

theorem diff_y_eq (y0 : Int) (l : IterLine) (h : in_int_range (l.baseline - y0) = true) :
    diff_y S y0 l = natural_delta S y0 l := by
  unfold diff_y natural_delta
  rw [wrap_int_of_in_range _ h]

theorem forced_add_eq (y0 : Int) (l : IterLine) (h : in_int_range (l.baseline - y0) = true)
    (hadd : in_int_range (exact_add S text y0 l) = true) :
    forced_add S text y0 l = exact_add S text y0 l := by
  unfold forced_add
  simp only [diff_y_eq S y0 l h]
  unfold exact_add at hadd ⊢
  have hmax : (if natural_delta S y0 l > LINE_HEIGHT then natural_delta S y0 l else LINE_HEIGHT)
      = max (natural_delta S y0 l) LINE_HEIGHT := by
    split_ifs <;> omega
  rw [hmax]
  cases hp : paragraph_break text l with
  | false => simp
  | true =>
    simp only [hp, if_true] at hadd ⊢
    exact wrap_int_of_in_range _ hadd

theorem exact_add_ge_line_height (y0 : Int) (l : IterLine) :
    LINE_HEIGHT ≤ exact_add S text y0 l := by
  unfold exact_add
  simp only [LINE_HEIGHT, PARAGRAPH_HEIGHT]
  split_ifs <;> omega

theorem exact_add_ge_natural_delta (y0 : Int) (l : IterLine) :
    natural_delta S y0 l ≤ exact_add S text y0 l := by
  unfold exact_add
  simp only [LINE_HEIGHT, PARAGRAPH_HEIGHT]
  split_ifs <;> omega

theorem exact_add_eq_max (y0 : Int) (l : IterLine) :
    exact_add S text y0 l =
      max (natural_delta S y0 l) LINE_HEIGHT +
        (if l.index > 0 ∧ byteAt text (l.index - 1) = 10 then PARAGRAPH_HEIGHT else 0) := by
  unfold exact_add paragraph_break
  simp only [Bool.and_eq_true, decide_eq_true_eq, beq_iff_eq]

theorem line_is_empty_eq_false_iff (l : IterLine) :
    line_is_empty text l = false ↔ byteAt text l.index ≠ 0 := by
  simp [line_is_empty]

theorem line_is_empty_eq_true_iff (l : IterLine) :
    line_is_empty text l = true ↔ byteAt text l.index = 0 := by
  simp [line_is_empty]

theorem render_body_empty (s : LoopVars) (l : IterLine) (h : line_is_empty text l = true) :
    render_body S text s l =
      ({ s with sum_extra_y := wrap_int (s.sum_extra_y - diff_y S s.y0 l) }, true) := by
  simp [render_body, h]

theorem render_body_nonempty (s : LoopVars) (l : IterLine) (h : line_is_empty text l = false) :
    render_body S text s l =
      ({ y0 := l.baseline
         baseline_y := wrap_int (s.baseline_y + forced_add S text s.y0 l)
         sum_extra_y :=
           wrap_int (s.sum_extra_y + wrap_int (forced_add S text s.y0 l - diff_y S s.y0 l))
         draws := s.draws ++
           [⟨conv_pango_to_pixel S l.logical_x,
             wrap_int (s.baseline_y + forced_add S text s.y0 l), l⟩] },
        false) := by
  simp [render_body, h]

theorem body_in_range_empty (s : LoopVars) (l : IterLine) (h : line_is_empty text l = true)
    (hr : body_in_range S text s l = true) :
    in_int_range (l.baseline - s.y0) = true ∧
      in_int_range (s.sum_extra_y - natural_delta S s.y0 l) = true := by
  simpa [body_in_range, h] using hr

theorem body_in_range_nonempty (s : LoopVars) (l : IterLine) (h : line_is_empty text l = false)
    (hr : body_in_range S text s l = true) :
    in_int_range (l.baseline - s.y0) = true ∧
      in_int_range (exact_add S text s.y0 l) = true ∧
      in_int_range (s.baseline_y + exact_add S text s.y0 l) = true ∧
      in_int_range (exact_add S text s.y0 l - natural_delta S s.y0 l) = true ∧
      in_int_range (s.sum_extra_y + (exact_add S text s.y0 l - natural_delta S s.y0 l)) = true := by
  simpa [body_in_range, h, and_assoc] using hr

theorem render_body_empty_in_range (s : LoopVars) (l : IterLine)
    (h : line_is_empty text l = true) (hr : body_in_range S text s l = true) :
    render_body S text s l =
      ({ s with sum_extra_y := s.sum_extra_y - natural_delta S s.y0 l }, true) := by
  obtain ⟨h1, h2⟩ := body_in_range_empty S text s l h hr
  rw [render_body_empty S text s l h, diff_y_eq S s.y0 l h1, wrap_int_of_in_range _ h2]

theorem render_body_nonempty_in_range (s : LoopVars) (l : IterLine)
    (h : line_is_empty text l = false) (hr : body_in_range S text s l = true) :
    render_body S text s l =
      ({ y0 := l.baseline
         baseline_y := s.baseline_y + exact_add S text s.y0 l
         sum_extra_y := s.sum_extra_y + (exact_add S text s.y0 l - natural_delta S s.y0 l)
         draws := s.draws ++
           [⟨conv_pango_to_pixel S l.logical_x, s.baseline_y + exact_add S text s.y0 l, l⟩] },
        false) := by
  obtain ⟨h1, h2, h3, h4, h5⟩ := body_in_range_nonempty S text s l h hr
  rw [render_body_nonempty S text s l h, diff_y_eq S s.y0 l h1, forced_add_eq S text s.y0 l h1 h2,
    wrap_int_of_in_range _ h3, wrap_int_of_in_range _ h4, wrap_int_of_in_range _ h5]

theorem render_loop_cons_empty (s : LoopVars) (l : IterLine) (ls : List IterLine)
    (h : line_is_empty text l = true) :
    render_loop S text s (l :: ls) = (render_body S text s l).1 := by
  simp [render_loop, render_body_empty S text s l h]

theorem render_loop_cons_nonempty (s : LoopVars) (l : IterLine) (ls : List IterLine)
    (h : line_is_empty text l = false) :
    render_loop S text s (l :: ls) =
      render_loop S text (render_body S text s l).1 ls := by
  simp [render_loop, render_body_nonempty S text s l h]

theorem render_loop_append (pre post : List IterLine)
    (h : ∀ l ∈ pre, line_is_empty text l = false) (s : LoopVars) :
    render_loop S text s (pre ++ post) = render_loop S text (render_loop S text s pre) post := by
  induction pre generalizing s with
  | nil => simp [render_loop]
  | cons l ls ih =>
    have hl : line_is_empty text l = false := h l (List.mem_cons_self _ _)
    have hls : ∀ x ∈ ls, line_is_empty text x = false :=
      fun x hx => h x (List.mem_cons_of_mem _ hx)
    rw [List.cons_append, render_loop_cons_nonempty S text s l _ hl,
      render_loop_cons_nonempty S text s l _ hl]
    exact ih hls _

theorem loop_in_range_cons_empty (s : LoopVars) (l : IterLine) (ls : List IterLine)
    (h : line_is_empty text l = true) (hr : loop_in_range S text s (l :: ls) = true) :
    body_in_range S text s l = true := by
  simpa [loop_in_range, h] using hr

theorem loop_in_range_cons_nonempty (s : LoopVars) (l : IterLine) (ls : List IterLine)
    (h : line_is_empty text l = false) (hr : loop_in_range S text s (l :: ls) = true) :
    body_in_range S text s l = true ∧
      loop_in_range S text (render_body S text s l).1 ls = true := by
  simpa [loop_in_range, h] using hr

theorem loop_in_range_append (pre post : List IterLine)
    (h : ∀ l ∈ pre, line_is_empty text l = false) (s : LoopVars)
    (hr : loop_in_range S text s (pre ++ post) = true) :
    loop_in_range S text s pre = true ∧
      loop_in_range S text (render_loop S text s pre) post = true := by
  induction pre generalizing s with
  | nil => exact ⟨rfl, by simpa [render_loop] using hr⟩
  | cons l ls ih =>
    have hl : line_is_empty text l = false := h l (List.mem_cons_self _ _)
    have hls : ∀ x ∈ ls, line_is_empty text x = false :=
      fun x hx => h x (List.mem_cons_of_mem _ hx)
    rw [List.cons_append] at hr
    obtain ⟨hb, hrest⟩ := loop_in_range_cons_nonempty S text s l _ hl hr
    obtain ⟨h1, h2⟩ := ih hls _ hrest
    rw [render_loop_cons_nonempty S text s l ls hl]
    refine ⟨?_, h2⟩
    simp [loop_in_range, hb, hl, h1]

theorem lastDrawn_render_first (first : IterLine) : LastDrawn (render_first S first) :=
  ⟨_, rfl, rfl, rfl⟩

theorem lastDrawn_body (s : LoopVars) (l : IterLine) (h : line_is_empty text l = false) :
    LastDrawn (render_body S text s l).1 := by
  rw [render_body_nonempty S text s l h]
  exact ⟨_, List.getLast?_concat _, rfl, rfl⟩

theorem chain_body (s : LoopVars) (l : IterLine) (h : line_is_empty text l = false)
    (hr : body_in_range S text s l = true)
    (hs : LastDrawn s) (hc : List.Chain' (StepRel S text) s.draws) :
    List.Chain' (StepRel S text) (render_body S text s l).1.draws := by
  obtain ⟨d, hd, hy, hb⟩ := hs
  rw [render_body_nonempty_in_range S text s l h hr]
  refine List.chain'_append.2 ⟨hc, List.chain'_singleton _, ?_⟩
  intro x hx y hy2
  rw [hd] at hx
  cases hx
  simp only [List.head?_cons, Option.mem_def, Option.some.injEq] at hy2
  subst hy2
  exact ⟨by rw [hy, hb], h, rfl⟩

theorem chain_render_loop (ls : List IterLine) (s : LoopVars)
    (hr : loop_in_range S text s ls = true)
    (hs : LastDrawn s) (hc : List.Chain' (StepRel S text) s.draws) :
    List.Chain' (StepRel S text) (render_loop S text s ls).draws := by
  induction ls generalizing s with
  | nil => simpa [render_loop] using hc
  | cons l ls ih =>
    cases h : line_is_empty text l with
    | true =>
      rw [render_loop_cons_empty S text s l ls h, render_body_empty S text s l h]
      exact hc
    | false =>
      obtain ⟨hb, hrest⟩ := loop_in_range_cons_nonempty S text s l ls h hr
      rw [render_loop_cons_nonempty S text s l ls h]
      exact ih _ hrest (lastDrawn_body S text s l h) (chain_body S text s l h hb hs hc)

theorem chain_render_lines (first : IterLine) (rest : List IterLine)
    (hr : render_in_range S text first rest = true) :
    List.Chain' (StepRel S text) (render_lines S text first rest).draws :=
  chain_render_loop S text rest _ hr (lastDrawn_render_first S first) (List.chain'_singleton _)

theorem drawn_lines_render_loop (ls : List IterLine) (s : LoopVars) :
    (render_loop S text s ls).draws.map DrawCall.line =
      s.draws.map DrawCall.line ++ ls.takeWhile (fun l => !line_is_empty text l) := by
  induction ls generalizing s with
  | nil => simp [render_loop]
  | cons l ls ih =>
    cases h : line_is_empty text l with
    | true =>
      rw [render_loop_cons_empty S text s l ls h, render_body_empty S text s l h]
      simp [List.takeWhile, h]
    | false =>
      rw [render_loop_cons_nonempty S text s l ls h, ih, render_body_nonempty S text s l h]
      simp [List.takeWhile, h]

theorem drawn_lines_render_lines (first : IterLine) (rest : List IterLine) :
    (render_lines S text first rest).draws.map DrawCall.line =
      first :: rest.takeWhile (fun l => !line_is_empty text l) := by
  unfold render_lines
  rw [drawn_lines_render_loop]
  rfl

theorem draws_render_loop_prefix (ls : List IterLine) (s : LoopVars) :
    ∃ more, (render_loop S text s ls).draws = s.draws ++ more := by
  induction ls generalizing s with
  | nil => exact ⟨[], by simp [render_loop]⟩
  | cons l ls ih =>
    cases h : line_is_empty text l with
    | true =>
      exact ⟨[], by
        rw [render_loop_cons_empty S text s l ls h, render_body_empty S text s l h]; simp⟩
    | false =>
      obtain ⟨more, hm⟩ := ih (render_body S text s l).1
      rw [render_loop_cons_nonempty S text s l ls h, hm, render_body_nonempty S text s l h]
      exact ⟨_, List.append_assoc _ _ _⟩

theorem y0_render_loop (ls : List IterLine) (h : ∀ l ∈ ls, line_is_empty text l = false)
    (s : LoopVars) :
    (render_loop S text s ls).y0 = (ls.map IterLine.baseline).getLastD s.y0 := by
  induction ls generalizing s with
  | nil => simp [render_loop]
  | cons l ls ih =>
    have hl : line_is_empty text l = false := h l (List.mem_cons_self _ _)
    have hls : ∀ x ∈ ls, line_is_empty text x = false :=
      fun x hx => h x (List.mem_cons_of_mem _ hx)
    rw [render_loop_cons_nonempty S text s l ls hl, ih hls, render_body_nonempty S text s l hl]
    cases ls with
    | nil => rfl
    | cons a as => rfl

theorem slack_render_loop (ls : List IterLine) (h : ∀ l ∈ ls, line_is_empty text l = false)
    (s : LoopVars) (hr : loop_in_range S text s ls = true) :
    (render_loop S text s ls).sum_extra_y =
      s.sum_extra_y + ((render_loop S text s ls).baseline_y - s.baseline_y)
        - sum_diff_y S s.y0 ls := by
  induction ls generalizing s with
  | nil => simp [render_loop, sum_diff_y]
  | cons l ls ih =>
    have hl : line_is_empty text l = false := h l (List.mem_cons_self _ _)
    have hls : ∀ x ∈ ls, line_is_empty text x = false :=
      fun x hx => h x (List.mem_cons_of_mem _ hx)
    obtain ⟨hb, hrest⟩ := loop_in_range_cons_nonempty S text s l ls hl hr
    rw [render_loop_cons_nonempty S text s l ls hl, ih hls _ hrest,
      render_body_nonempty_in_range S text s l hl hb]
    simp only [sum_diff_y]
    omega

theorem slack_nonneg_render_loop (ls : List IterLine)
    (h : ∀ l ∈ ls, line_is_empty text l = false) (s : LoopVars)
    (hr : loop_in_range S text s ls = true) (hs : 0 ≤ s.sum_extra_y) :
    0 ≤ (render_loop S text s ls).sum_extra_y := by
  induction ls generalizing s with
  | nil => simpa [render_loop] using hs
  | cons l ls ih =>
    have hl : line_is_empty text l = false := h l (List.mem_cons_self _ _)
    have hls : ∀ x ∈ ls, line_is_empty text x = false :=
      fun x hx => h x (List.mem_cons_of_mem _ hx)
    obtain ⟨hb, hrest⟩ := loop_in_range_cons_nonempty S text s l ls hl hr
    rw [render_loop_cons_nonempty S text s l ls hl]
    apply ih hls _ hrest
    rw [render_body_nonempty_in_range S text s l hl hb]
    have := exact_add_ge_natural_delta S text s.y0 l
    simp only
    omega

theorem slack_neg_render_loop (ls : List IterLine) (s : LoopVars)
    (hr : loop_in_range S text s ls = true) (hs : 0 ≤ s.sum_extra_y)
    (hneg : (render_loop S text s ls).sum_extra_y < 0) :
    ∃ l ∈ ls, line_is_empty text l = true := by
  by_contra hno
  have hall : ∀ l ∈ ls, line_is_empty text l = false := by
    intro l hl
    cases h : line_is_empty text l with
    | false => rfl
    | true => exact absurd ⟨l, hl, h⟩ hno
  have := slack_nonneg_render_loop S text ls hall s hr hs
  omega

theorem conv_of_dvd (p : Int) (h : S ∣ p) : conv_pango_to_pixel S p = p / S := by
  unfold conv_pango_to_pixel
  rw [Int.neg_ediv_of_dvd h, neg_neg]

theorem conv_nonpos_of_neg (hS : 0 < S) (p : Int) (hp : p < 0) :
    conv_pango_to_pixel S p ≤ 0 := by
  unfold conv_pango_to_pixel
  have : 0 ≤ (-p) / S := Int.ediv_nonneg (by omega) (by omega)
  omega

theorem sum_diff_y_whole_pixels (ls : List IterLine) (y0 : Int) (h0 : S ∣ y0)
    (h : ∀ l ∈ ls, S ∣ l.baseline) :
    sum_diff_y S y0 ls =
      conv_pango_to_pixel S ((ls.map IterLine.baseline).getLastD y0)
        - conv_pango_to_pixel S y0 := by
  induction ls generalizing y0 with
  | nil => simp [sum_diff_y]
  | cons l ls ih =>
    have hl : S ∣ l.baseline := h l (List.mem_cons_self _ _)
    have hls : ∀ x ∈ ls, S ∣ x.baseline := fun x hx => h x (List.mem_cons_of_mem _ hx)
    have hlast : ((l :: ls).map IterLine.baseline).getLastD y0 =
        (ls.map IterLine.baseline).getLastD l.baseline := by
      cases ls <;> rfl
    rw [hlast]
    simp only [sum_diff_y, natural_delta]
    rw [ih l.baseline hl hls, conv_of_dvd S _ (Int.dvd_sub hl h0), conv_of_dvd S _ hl,
      conv_of_dvd S _ h0, Int.sub_ediv_of_dvd _ h0]
    omega

end LoopLemmas

/-! ## Lemmas on the stdin reader -/

theorem set_length_append (done : List Nat) (x c : Nat) (t : List Nat) :
    (done ++ x :: t).set done.length c = done ++ c :: t := by
  induction done with
  | nil => rfl
  | cons a as ih => simp [ih]

theorem store_length_append (done : List Nat) (x c : Nat) (t : List Nat) :
    store (done ++ x :: t) done.length c = some (done ++ c :: t) := by
  unfold store
  rw [if_pos (by simp), set_length_append]

theorem read_loop_spec (pending : List Nat) (done tail : List Nat)
    (hlen : done.length + tail.length = MAX_CHARS + 1) :
    read_loop pending false done.length (done ++ tail) =
      some (done.length + min pending.length (MAX_CHARS - done.length),
        done ++ pending.take (min pending.length (MAX_CHARS - done.length))
          ++ tail.drop (min pending.length (MAX_CHARS - done.length))) := by
  induction pending generalizing done tail with
  | nil =>
    unfold read_loop
    split_ifs <;> simp
  | cons c more ih =>
    unfold read_loop
    by_cases hi : done.length < MAX_CHARS
    · rw [if_pos ⟨hi, rfl⟩]
      cases tail with
      | nil => simp at hlen; omega
      | cons x t =>
        simp only [store_length_append]
        have hlen2 : (done ++ [c]).length + t.length = MAX_CHARS + 1 := by
          simp only [List.length_append, List.length_cons, List.length_nil] at hlen ⊢
          omega
        have h := ih (done ++ [c]) t hlen2
        have hk : min (c :: more).length (MAX_CHARS - done.length) =
            min more.length (MAX_CHARS - (done ++ [c]).length) + 1 := by
          simp only [List.length_append, List.length_cons, List.length_nil]
          omega
        have hd : (done ++ [c]).length = done.length + 1 := by simp
        rw [hk]
        rw [hd] at h
        rw [List.append_cons done c t, h, hd]
        simp [Nat.add_assoc, Nat.add_comm 1]
    · have hz : MAX_CHARS - done.length = 0 := by omega
      rw [if_neg (fun h => hi h.1), hz]
      simp


/-! ## The claims -/

/-- C1: in a walk without `int` overflow, the lines drawn are line 0 and the
non-first lines up to the first empty one, and every drawn non-first line is
placed above the previously drawn line by exactly
`max(natural_delta, LINE_HEIGHT)`, plus `PARAGRAPH_HEIGHT` exactly when its
start index is positive and the byte before it is a newline; `natural_delta` is
the pixel conversion of the difference of the two natural baselines,
`LINE_HEIGHT` is 20 and `PARAGRAPH_HEIGHT` is 4. A natural delta of 15 pixels
right after a newline moves the baseline by 24. -/
theorem C1_forced_advance (S : Int) (text : List Nat) (first : IterLine)
    (rest : List IterLine) (hr : render_in_range S text first rest = true) :
    (render_lines S text first rest).draws.map DrawCall.line =
        first :: rest.takeWhile (fun l => decide (byteAt text l.index ≠ 0)) ∧
      List.Chain'
        (fun prev cur : DrawCall =>
          cur.y - prev.y =
            max (conv_pango_to_pixel S (cur.line.baseline - prev.line.baseline)) LINE_HEIGHT +
              (if cur.line.index > 0 ∧ byteAt text (cur.line.index - 1) = 10
                then PARAGRAPH_HEIGHT else 0))
        (render_lines S text first rest).draws ∧
      LINE_HEIGHT = 20 ∧ PARAGRAPH_HEIGHT = 4 ∧
      (render_lines 1024 [97, 10, 98] ⟨14336, 0, 0⟩ [⟨29696, 2, 0⟩]).draws.map DrawCall.y
        = [14, 14 + 24] := by
  refine ⟨?_, ?_, rfl, rfl, by decide⟩
  · rw [drawn_lines_render_lines]
    congr 2
    funext l
    by_cases h : byteAt text l.index = 0 <;> simp [line_is_empty, h]
  · refine (chain_render_lines S text first rest hr).imp ?_
    intro prev cur h
    rw [h.1, exact_add_eq_max]
    simp only [natural_delta]
    omega

/-- Witness for C1: a line 15 pixels below line 0, right after a newline. -/
theorem C1_forced_advance_witness :
    (render_lines 1024 [97, 10, 98] ⟨14336, 0, 0⟩ [⟨29696, 2, 0⟩]).draws.map DrawCall.line =
        IterLine.mk 14336 0 0 ::
          [IterLine.mk 29696 2 0].takeWhile
            (fun l => decide (byteAt [97, 10, 98] l.index ≠ 0)) ∧
      List.Chain'
        (fun prev cur : DrawCall =>
          cur.y - prev.y =
            max (conv_pango_to_pixel 1024 (cur.line.baseline - prev.line.baseline)) LINE_HEIGHT +
              (if cur.line.index > 0 ∧ byteAt [97, 10, 98] (cur.line.index - 1) = 10
                then PARAGRAPH_HEIGHT else 0))
        (render_lines 1024 [97, 10, 98] ⟨14336, 0, 0⟩ [⟨29696, 2, 0⟩]).draws := by
  have h := C1_forced_advance 1024 [97, 10, 98] ⟨14336, 0, 0⟩ [⟨29696, 2, 0⟩] (by decide)
  exact ⟨h.1, h.2.1⟩

/-- C2: in a walk without `int` overflow, whatever the order of the natural
baselines, each draw call is issued at least `LINE_HEIGHT` pixels below the draw
call before it, and the `y` coordinates of the draw calls are non-decreasing in
call order. -/
theorem C2_min_spacing (S : Int) (text : List Nat) (first : IterLine)
    (rest : List IterLine) (hr : render_in_range S text first rest = true) :
    List.Chain' (fun prev cur : DrawCall => cur.y - prev.y ≥ LINE_HEIGHT)
        (render_lines S text first rest).draws ∧
      List.Pairwise (fun a b : Int => a ≤ b)
        ((render_lines S text first rest).draws.map DrawCall.y) := by
  have hc : List.Chain' (fun prev cur : DrawCall => cur.y - prev.y ≥ LINE_HEIGHT)
      (render_lines S text first rest).draws := by
    refine (chain_render_lines S text first rest hr).imp ?_
    intro prev cur h
    have := exact_add_ge_line_height S text prev.line.baseline cur.line
    rw [h.1]
    omega
  refine ⟨hc, ?_⟩
  apply List.chain'_iff_pairwise.1
  rw [List.chain'_map]
  refine hc.imp ?_
  intro a b h
  simp only [LINE_HEIGHT] at h
  omega

/-- Witness for C2: three lines whose natural baselines go down, then up. -/
theorem C2_min_spacing_witness :
    List.Chain' (fun prev cur : DrawCall => cur.y - prev.y ≥ LINE_HEIGHT)
        (render_lines 1024 [97, 98, 99] ⟨20480, 0, 0⟩ [⟨18432, 1, 0⟩, ⟨51200, 2, 0⟩]).draws ∧
      List.Pairwise (fun a b : Int => a ≤ b)
        ((render_lines 1024 [97, 98, 99] ⟨20480, 0, 0⟩
          [⟨18432, 1, 0⟩, ⟨51200, 2, 0⟩]).draws.map DrawCall.y) :=
  C2_min_spacing 1024 [97, 98, 99] ⟨20480, 0, 0⟩ [⟨18432, 1, 0⟩, ⟨51200, 2, 0⟩] (by decide)

/-- C3: the first draw call is issued at the pixel conversion of line 0's
logical x and of line 0's natural baseline, for line 0; when the iterator has
no further line this is the only draw call and `sum_extra_y` ends at 0. -/
theorem C3_first_line_unshifted (S : Int) (text : List Nat) (first : IterLine)
    (rest : List IterLine) :
    (render_lines S text first rest).draws.head? =
        some ⟨conv_pango_to_pixel S first.logical_x,
          conv_pango_to_pixel S first.baseline, first⟩ ∧
      (render_lines S text first []).draws =
        [⟨conv_pango_to_pixel S first.logical_x,
          conv_pango_to_pixel S first.baseline, first⟩] ∧
      (render_lines S text first []).sum_extra_y = 0 := by
  refine ⟨?_, rfl, rfl⟩
  obtain ⟨more, hm⟩ := draws_render_loop_prefix S text rest (render_first S first)
  unfold render_lines
  rw [hm]
  rfl

/-- C4: in a walk without `int` overflow whose non-first lines are `pre`, all
non-empty, then an empty line `e`, then `post`, the walk ends where the walk
over `pre` alone ends: the draw calls are those of line 0 and of `pre` (one per
preceding line), `baseline_y` is not advanced for `e`, and `sum_extra_y` is the
slack of the preceding lines minus the pixel conversion of the distance from
the last preceding line's baseline to the baseline of `e`. -/
theorem C4_stop_at_empty_line (S : Int) (text : List Nat) (first : IterLine)
    (pre : List IterLine) (e : IterLine) (post : List IterLine)
    (hpre : ∀ l ∈ pre, byteAt text l.index ≠ 0) (he : byteAt text e.index = 0)
    (hr : render_in_range S text first (pre ++ e :: post) = true) :
    (render_lines S text first (pre ++ e :: post)).draws =
        (render_lines S text first pre).draws ∧
      (render_lines S text first (pre ++ e :: post)).draws.map DrawCall.line = first :: pre ∧
      (render_lines S text first (pre ++ e :: post)).draws.length = pre.length + 1 ∧
      (render_lines S text first (pre ++ e :: post)).baseline_y =
        (render_lines S text first pre).baseline_y ∧
      (render_lines S text first (pre ++ e :: post)).sum_extra_y =
        (render_lines S text first pre).sum_extra_y -
          conv_pango_to_pixel S
            (e.baseline - (pre.map IterLine.baseline).getLastD first.baseline) := by
  have hpre2 : ∀ l ∈ pre, line_is_empty text l = false :=
    fun l hl => (line_is_empty_eq_false_iff text l).2 (hpre l hl)
  have he2 : line_is_empty text e = true := (line_is_empty_eq_true_iff text e).2 he
  obtain ⟨_, hre⟩ := loop_in_range_append S text pre (e :: post) hpre2 _ hr
  have hbe := loop_in_range_cons_empty S text _ e post he2 hre
  have hrun : render_lines S text first (pre ++ e :: post) =
      { render_lines S text first pre with
        sum_extra_y := (render_lines S text first pre).sum_extra_y -
          natural_delta S (render_lines S text first pre).y0 e } := by
    unfold render_lines
    rw [render_loop_append S text pre (e :: post) hpre2, render_loop_cons_empty S text _ e post he2,
      render_body_empty_in_range S text _ e he2 hbe]
  have hlines : (render_lines S text first pre).draws.map DrawCall.line = first :: pre := by
    rw [drawn_lines_render_lines, List.takeWhile_eq_self_iff.2]
    intro l hl
    simp [hpre2 l hl]
  have hy0 : (render_lines S text first pre).y0 =
      (pre.map IterLine.baseline).getLastD first.baseline := by
    unfold render_lines
    rw [y0_render_loop S text pre hpre2]
    rfl
  rw [hrun]
  refine ⟨rfl, hlines, ?_, rfl, ?_⟩
  · have := congrArg List.length hlines
    simpa using this
  · simp only [natural_delta, hy0]

/-- Witness for C4: two drawn lines, then an empty line, then one more line. -/
theorem C4_stop_at_empty_line_witness :
    (render_lines 1024 [97, 98] ⟨14336, 0, 0⟩
        ([⟨32768, 1, 0⟩] ++ ⟨51200, 2, 0⟩ :: [⟨69632, 1, 0⟩])).draws.length = 2 ∧
      (render_lines 1024 [97, 98] ⟨14336, 0, 0⟩
        ([⟨32768, 1, 0⟩] ++ ⟨51200, 2, 0⟩ :: [⟨69632, 1, 0⟩])).sum_extra_y =
        (render_lines 1024 [97, 98] ⟨14336, 0, 0⟩ [⟨32768, 1, 0⟩]).sum_extra_y - 18 := by
  have h := C4_stop_at_empty_line 1024 [97, 98] ⟨14336, 0, 0⟩ [⟨32768, 1, 0⟩] ⟨51200, 2, 0⟩
    [⟨69632, 1, 0⟩] (by decide) (by decide) (by decide)
  exact ⟨h.2.2.1, h.2.2.2.2⟩

/-- C5, as the claim states it, fails: for the empty text the iterator's only
line starts at the terminator, so it is empty, and it is passed to the one
draw call of the walk. -/
theorem C5_counterexample :
    byteAt [] (IterLine.mk 14336 0 0).index = 0 ∧
      (render_lines 1024 [] (IterLine.mk 14336 0 0) []).draws =
        [DrawCall.mk 0 14 (IterLine.mk 14336 0 0)] := by
  decide

/-- C5, amended: for every text, the empty text included, the first draw call
is for line 0, whatever line 0 holds; the draw calls after it are for the
non-first lines before the first empty one, in order; so every draw call other
than the first is for a non-first line that is not empty (the byte at its start
index is not the terminator). -/
theorem C5_nonfirst_empty_not_drawn (S : Int) (text : List Nat) (first : IterLine)
    (rest : List IterLine) :
    ((render_lines S text first rest).draws.map DrawCall.line).head? = some first ∧
      (render_lines S text first rest).draws.tail.map DrawCall.line =
        rest.takeWhile (fun l => decide (byteAt text l.index ≠ 0)) ∧
      (∀ d ∈ (render_lines S text first rest).draws.tail,
        byteAt text d.line.index ≠ 0 ∧ d.line ∈ rest) := by
  have hlines := drawn_lines_render_lines S text first rest
  have htail : (render_lines S text first rest).draws.tail.map DrawCall.line =
      rest.takeWhile (fun l => !line_is_empty text l) := by
    rw [List.map_tail, hlines]
    rfl
  have hfun : (fun l : IterLine => !line_is_empty text l) =
      (fun l : IterLine => decide (byteAt text l.index ≠ 0)) := by
    funext l
    by_cases h : byteAt text l.index = 0 <;> simp [line_is_empty, h]
  refine ⟨by rw [hlines]; rfl, by rw [htail, hfun], ?_⟩
  intro d hd
  have hmem : d.line ∈ rest.takeWhile (fun l => !line_is_empty text l) := by
    rw [← htail]
    exact List.mem_map_of_mem _ hd
  refine ⟨?_, (List.takeWhile_sublist _).subset hmem⟩
  have := List.mem_takeWhile_imp hmem
  simpa [line_is_empty] using this

/-- Witness for C5: the text is one letter and a newline; line 0 is drawn and
the empty line that follows, 16 pixels further, is not. -/
theorem C5_nonfirst_empty_not_drawn_witness :
    byteAt [97, 10] (IterLine.mk 30720 2 0).index = 0 ∧
      ((render_lines 1024 [97, 10] ⟨14336, 0, 0⟩ [⟨30720, 2, 0⟩]).draws.map
        DrawCall.line).head? = some (IterLine.mk 14336 0 0) ∧
      (render_lines 1024 [97, 10] ⟨14336, 0, 0⟩ [⟨30720, 2, 0⟩]).draws.tail.map DrawCall.line =
        [IterLine.mk 30720 2 0].takeWhile (fun l => decide (byteAt [97, 10] l.index ≠ 0)) ∧
      [IterLine.mk 30720 2 0].takeWhile (fun l => decide (byteAt [97, 10] l.index ≠ 0)) = [] := by
  have h := C5_nonfirst_empty_not_drawn 1024 [97, 10] ⟨14336, 0, 0⟩ [⟨30720, 2, 0⟩]
  exact ⟨by decide, h.1, h.2.1, by decide⟩

/-- C6, as the claim states it, fails: no `int` operation overflows, the second
line's baseline lies 2048 Pango units (2 pixels) above the first line's, the
adjusted baseline advances by `max(0, LINE_HEIGHT) = 20`, and `sum_extra_y`
grows by 22, not by 20. -/
theorem C6_counterexample :
    render_in_range 1024 [97, 98] (IterLine.mk 20480 0 0) [IterLine.mk 18432 1 0] = true ∧
      (IterLine.mk 18432 1 0).baseline < (IterLine.mk 20480 0 0).baseline ∧
      byteAt [97, 98] (IterLine.mk 18432 1 0).index ≠ 0 ∧
      (render_lines 1024 [97, 98] (IterLine.mk 20480 0 0) [IterLine.mk 18432 1 0]).baseline_y
        = (render_lines 1024 [97, 98] (IterLine.mk 20480 0 0) []).baseline_y
          + max 0 LINE_HEIGHT ∧
      (render_lines 1024 [97, 98] (IterLine.mk 20480 0 0) [IterLine.mk 18432 1 0]).sum_extra_y
        = 22 ∧
      (render_lines 1024 [97, 98] (IterLine.mk 20480 0 0) [IterLine.mk 18432 1 0]).sum_extra_y
        ≠ (render_lines 1024 [97, 98] (IterLine.mk 20480 0 0) []).sum_extra_y
          + (max 0 LINE_HEIGHT - 0) := by
  decide

/-- C6, amended: for a non-empty line whose natural baseline is smaller than
the previous line's (with a positive `PANGO_SCALE`, in a pass without `int`
overflow), the body does not leave the loop, issues one draw call, and advances
`baseline_y` by `max(0, LINE_HEIGHT)`, plus `PARAGRAPH_HEIGHT` after a newline,
as it would for a natural delta of 0; the natural delta is not clamped, it is
zero or negative, and `sum_extra_y` grows by the forced advance minus that
delta. -/
theorem C6_decreasing_baseline (S : Int) (text : List Nat) (s : LoopVars) (l : IterLine)
    (hS : 0 < S) (hne : byteAt text l.index ≠ 0) (hlt : l.baseline < s.y0)
    (hr : body_in_range S text s l = true) :
    (render_body S text s l).2 = false ∧
      (∀ ls, render_loop S text s (l :: ls) = render_loop S text (render_body S text s l).1 ls) ∧
      (render_body S text s l).1.baseline_y =
        s.baseline_y + (max 0 LINE_HEIGHT +
          (if l.index > 0 ∧ byteAt text (l.index - 1) = 10 then PARAGRAPH_HEIGHT else 0)) ∧
      (render_body S text s l).1.draws =
        s.draws ++ [⟨conv_pango_to_pixel S l.logical_x, (render_body S text s l).1.baseline_y, l⟩] ∧
      conv_pango_to_pixel S (l.baseline - s.y0) ≤ 0 ∧
      (render_body S text s l).1.sum_extra_y =
        s.sum_extra_y + (((render_body S text s l).1.baseline_y - s.baseline_y)
          - conv_pango_to_pixel S (l.baseline - s.y0)) := by
  have hl : line_is_empty text l = false := (line_is_empty_eq_false_iff text l).2 hne
  have hconv : conv_pango_to_pixel S (l.baseline - s.y0) ≤ 0 :=
    conv_nonpos_of_neg S hS _ (by omega)
  have hadd := exact_add_eq_max S text s.y0 l
  have hmax : max (natural_delta S s.y0 l) LINE_HEIGHT = max 0 LINE_HEIGHT := by
    simp only [natural_delta, LINE_HEIGHT]
    omega
  have hbody := render_body_nonempty_in_range S text s l hl hr
  refine ⟨?_, fun ls => render_loop_cons_nonempty S text s l ls hl, ?_, ?_, hconv, ?_⟩
  · rw [hbody]
  · rw [hbody]
    simp only
    rw [hadd, hmax]
  · rw [hbody]
  · rw [hbody]
    simp only [natural_delta]
    omega

/-- Witness for C6: the second line lies 2 pixels above the first. -/
theorem C6_decreasing_baseline_witness :
    (render_body 1024 [97, 98] (render_first 1024 ⟨20480, 0, 0⟩) ⟨18432, 1, 0⟩).2 = false ∧
      conv_pango_to_pixel 1024 (18432 - 20480) ≤ 0 := by
  have h := C6_decreasing_baseline 1024 [97, 98] (render_first 1024 ⟨20480, 0, 0⟩)
    ⟨18432, 1, 0⟩ (by decide) (by decide) (by decide) (by decide)
  exact ⟨h.1, h.2.2.2.2.1⟩

/-- C7, as the claim states it, fails: three non-empty lines with natural
baselines at 14, 32.5 and 51 pixels, walked without `int` overflow. Each natural
delta of 18.5 pixels is rounded up to 19, `sum_extra_y` ends at 2, while the
forced height (40) minus the difference of the converted first and last
baselines (51 - 14) is 3. -/
theorem C7_counterexample :
    render_in_range 1024 [97, 98, 99] (IterLine.mk 14336 0 0)
        [IterLine.mk 33280 1 0, IterLine.mk 52224 2 0] = true ∧
      (IterLine.mk 14336 0 0).baseline ≤ (IterLine.mk 33280 1 0).baseline ∧
      (IterLine.mk 33280 1 0).baseline ≤ (IterLine.mk 52224 2 0).baseline ∧
      byteAt [97, 98, 99] 1 ≠ 0 ∧ byteAt [97, 98, 99] 2 ≠ 0 ∧
      (render_lines 1024 [97, 98, 99] (IterLine.mk 14336 0 0)
        [IterLine.mk 33280 1 0, IterLine.mk 52224 2 0]).sum_extra_y = 2 ∧
      ((render_lines 1024 [97, 98, 99] (IterLine.mk 14336 0 0)
          [IterLine.mk 33280 1 0, IterLine.mk 52224 2 0]).baseline_y
        - (render_lines 1024 [97, 98, 99] (IterLine.mk 14336 0 0) []).baseline_y)
        - (conv_pango_to_pixel 1024 52224 - conv_pango_to_pixel 1024 14336) = 3 := by
  decide

/-- C7, amended: in a walk without `int` overflow in which no non-first line is
empty, the final `sum_extra_y` is the forced height (final `baseline_y` minus
the `baseline_y` of line 0) minus the sum of the natural deltas, each one
converted to pixels on its own; when every natural baseline is a multiple of
`PANGO_SCALE` that sum is the converted last baseline minus the converted first
baseline. Natural deltas of 18 and 25 pixels give 2. -/
theorem C7_slack_is_height_difference (S : Int) (text : List Nat) (first : IterLine)
    (rest : List IterLine) (h : ∀ l ∈ rest, byteAt text l.index ≠ 0)
    (hr : render_in_range S text first rest = true) :
    (render_lines S text first rest).sum_extra_y =
        ((render_lines S text first rest).baseline_y
            - (render_lines S text first []).baseline_y)
          - sum_diff_y S first.baseline rest ∧
      ((∀ l ∈ first :: rest, S ∣ l.baseline) →
        (render_lines S text first rest).sum_extra_y =
          ((render_lines S text first rest).baseline_y
              - (render_lines S text first []).baseline_y)
            - (conv_pango_to_pixel S ((rest.map IterLine.baseline).getLastD first.baseline)
                - conv_pango_to_pixel S first.baseline)) ∧
      (render_lines 1024 [97, 98, 99] ⟨14336, 0, 0⟩
        [⟨14336 + 18 * 1024, 1, 0⟩, ⟨14336 + 18 * 1024 + 25 * 1024, 2, 0⟩]).sum_extra_y = 2 := by
  have h2 : ∀ l ∈ rest, line_is_empty text l = false :=
    fun l hl => (line_is_empty_eq_false_iff text l).2 (h l hl)
  have hs := slack_render_loop S text rest h2 (render_first S first) hr
  have hmain : (render_lines S text first rest).sum_extra_y =
      ((render_lines S text first rest).baseline_y
          - (render_lines S text first []).baseline_y)
        - sum_diff_y S first.baseline rest := by
    unfold render_lines
    rw [hs]
    simp only [render_first, render_loop]
    omega
  refine ⟨hmain, ?_, by decide⟩
  intro hdvd
  rw [hmain, sum_diff_y_whole_pixels S rest first.baseline
    (hdvd first (List.mem_cons_self _ _)) (fun l hl => hdvd l (List.mem_cons_of_mem _ hl))]

/-- Witness for C7: three non-empty lines with fractional pixel baselines. -/
theorem C7_slack_is_height_difference_witness :
    (render_lines 1024 [97, 98, 99] ⟨14336, 0, 0⟩ [⟨33280, 1, 0⟩, ⟨52224, 2, 0⟩]).sum_extra_y =
      ((render_lines 1024 [97, 98, 99] ⟨14336, 0, 0⟩ [⟨33280, 1, 0⟩, ⟨52224, 2, 0⟩]).baseline_y
          - (render_lines 1024 [97, 98, 99] ⟨14336, 0, 0⟩ []).baseline_y)
        - sum_diff_y 1024 (IterLine.mk 14336 0 0).baseline [⟨33280, 1, 0⟩, ⟨52224, 2, 0⟩] :=
  (C7_slack_is_height_difference 1024 [97, 98, 99] ⟨14336, 0, 0⟩
    [⟨33280, 1, 0⟩, ⟨52224, 2, 0⟩] (by decide) (by decide)).1

/-- C8: in a walk over `pre ++ post` without `int` overflow, every line of
`pre` non-empty, the state after the draw call for the last line of `pre` is the
end state of the walk over `pre`, and its `sum_extra_y` is not negative; every
drawn non-first line is placed at least its natural delta (in pixels) below the
line drawn before it; and a negative final `sum_extra_y` occurs only when the
walk met an empty line, where it ends. -/
theorem C8_never_compress (S : Int) (text : List Nat) (first : IterLine)
    (pre post : List IterLine) (hpre : ∀ l ∈ pre, byteAt text l.index ≠ 0)
    (hr : render_in_range S text first (pre ++ post) = true) :
    render_lines S text first (pre ++ post) =
        render_loop S text (render_lines S text first pre) post ∧
      0 ≤ (render_lines S text first pre).sum_extra_y ∧
      List.Chain'
        (fun prev cur : DrawCall =>
          conv_pango_to_pixel S (cur.line.baseline - prev.line.baseline) ≤ cur.y - prev.y)
        (render_lines S text first (pre ++ post)).draws ∧
      ((render_lines S text first (pre ++ post)).sum_extra_y < 0 →
        ∃ l ∈ post, byteAt text l.index = 0) := by
  have hpre2 : ∀ l ∈ pre, line_is_empty text l = false :=
    fun l hl => (line_is_empty_eq_false_iff text l).2 (hpre l hl)
  obtain ⟨hrpre, hrpost⟩ := loop_in_range_append S text pre post hpre2 _ hr
  have happ : render_lines S text first (pre ++ post) =
      render_loop S text (render_lines S text first pre) post :=
    render_loop_append S text pre post hpre2 _
  have hnonneg : 0 ≤ (render_lines S text first pre).sum_extra_y :=
    slack_nonneg_render_loop S text pre hpre2 _ hrpre (le_refl _)
  refine ⟨happ, hnonneg, ?_, ?_⟩
  · refine (chain_render_lines S text first (pre ++ post) hr).imp ?_
    intro prev cur h
    have := exact_add_ge_natural_delta S text prev.line.baseline cur.line
    rw [h.1]
    simp only [natural_delta] at this
    omega
  · intro hneg
    rw [happ] at hneg
    obtain ⟨l, hl, he⟩ := slack_neg_render_loop S text post _ hrpost hnonneg hneg
    exact ⟨l, hl, (line_is_empty_eq_true_iff text l).1 he⟩

/-- Witness for C8: one drawn line, then an empty line 18 pixels further. -/
theorem C8_never_compress_witness :
    0 ≤ (render_lines 1024 [97, 98] ⟨14336, 0, 0⟩ [⟨32768, 1, 0⟩]).sum_extra_y ∧
      ((render_lines 1024 [97, 98] ⟨14336, 0, 0⟩
          ([⟨32768, 1, 0⟩] ++ [⟨51200, 2, 0⟩])).sum_extra_y < 0 →
        ∃ l ∈ [IterLine.mk 51200 2 0], byteAt [97, 98] l.index = 0) := by
  have h := C8_never_compress 1024 [97, 98] ⟨14336, 0, 0⟩ [⟨32768, 1, 0⟩] [⟨51200, 2, 0⟩]
    (by decide) (by decide)
  exact ⟨h.2.1, h.2.2.2⟩

/-- C9 (what the code does): `render` returns 1 whatever status the drawing
and the PNG write report, a failed write included, and `main` then ends with
`EXIT_SUCCESS`. -/
theorem C9_render_returns_one (S : Int) (text : List Nat) (first : IterLine)
    (rest : List IterLine) (draw_status png_status : CairoStatus) :
    (render S text first rest draw_status png_status).ret = 1 ∧
      (render 1024 [97] ⟨14336, 0, 0⟩ [] CairoStatus.success (CairoStatus.failure 11)).ret = 1 ∧
      main_exit 1 (render S text first rest draw_status png_status).ret
        = ExitStatus.EXIT_SUCCESS :=
  ⟨rfl, rfl, rfl⟩

/-- C10: on a buffer of `MAX_CHARS + 1` bytes and a stream that delivers the
bytes `stdin` before `EOF`, no write of the read loop or of the terminator
falls outside the buffer, and the buffer ends up holding the first
`min(n, MAX_CHARS)` bytes of `stdin` in order, then 0 at index
`min(n, MAX_CHARS)`, then its old bytes; that index is at most
`MAX_CHARS = 4000`, and bytes of `stdin` beyond the first 4000 are not stored. -/
theorem C10_bounded_read (stdin buf : List Nat) (hbuf : buf.length = MAX_CHARS + 1) :
    main_read stdin buf =
        some (stdin.take (min stdin.length MAX_CHARS) ++
          0 :: buf.drop (min stdin.length MAX_CHARS + 1)) ∧
      (stdin.take (min stdin.length MAX_CHARS)).length = min stdin.length MAX_CHARS ∧
      min stdin.length MAX_CHARS ≤ MAX_CHARS ∧ MAX_CHARS = 4000 ∧
      min stdin.length MAX_CHARS < buf.length := by
  have h := read_loop_spec stdin [] buf (by simpa using hbuf)
  simp only [List.length_nil, Nat.zero_add, Nat.sub_zero, List.nil_append] at h
  have hk : min stdin.length MAX_CHARS < buf.length := by omega
  have hlen : (stdin.take (min stdin.length MAX_CHARS)).length = min stdin.length MAX_CHARS := by
    simp
  refine ⟨?_, hlen, Nat.min_le_right _ _, rfl, hk⟩
  unfold main_read
  rw [h]
  simp only
  obtain ⟨x, hx⟩ : ∃ x, buf.drop (min stdin.length MAX_CHARS) =
      x :: buf.drop (min stdin.length MAX_CHARS + 1) :=
    ⟨buf.get ⟨_, hk⟩, (List.drop_eq_getElem_cons hk)⟩
  rw [hx]
  have := store_length_append (stdin.take (min stdin.length MAX_CHARS)) x 0
    (buf.drop (min stdin.length MAX_CHARS + 1))
  rw [hlen] at this
  exact this

/-- Witness for C10: two bytes of input on a fresh buffer of 4001 bytes. -/
theorem C10_bounded_read_witness :
    main_read [104, 105] (List.replicate 4001 7) =
      some ([104, 105].take (min [104, 105].length MAX_CHARS) ++
        0 :: (List.replicate 4001 7).drop (min [104, 105].length MAX_CHARS + 1)) :=
  (C10_bounded_read [104, 105] (List.replicate 4001 7) (List.length_replicate 4001 7)).1

end PangoLineSkip
